import Mathlib

/-!
Verification of the traceability-number ingestion and certificate-resolution
core of the meat-processing dashboard.

The development shallowly embeds:
* the deduplicating ingest store (`addAnimals` in `Dashboard.tsx`),
* the scanner-label text parser (`processTxtFile` in `Dashboard.tsx`),
* the two generations of the certificate resolution engine
  (`fetchAll` in `GradeCertificatePrintModal.tsx`: the earlier per-row
  implementation and the current one-lookup-per-distinct-number
  implementation).

JavaScript string operations (`split`, `trim`, `replace` with the concrete
regexes appearing in the source) are modelled character-by-character on
`List Char` so that every definition evaluates inside the kernel.
-/

namespace MeatDashboard

/-- Character class of the JavaScript regex `\s` (and of `String.prototype.trim`):
ASCII whitespace, NBSP, the Unicode space separators, line/paragraph
separators and the BOM. -/
def isJsSpace (c : Char) : Bool :=
  c == ' ' || c == '\t' || c == '\n' || c == '\r' || c == '\x0b' || c == '\x0c' ||
  c == '\u00A0' || c == '\u1680' ||
  (decide ('\u2000' ≤ c) && decide (c ≤ '\u200A')) ||
  c == '\u2028' || c == '\u2029' || c == '\u202F' || c == '\u205F' ||
  c == '\u3000' || c == '\uFEFF'

/-- `l` with leading and trailing JS whitespace removed (model of `trim()`). -/
def jsTrimList (l : List Char) : List Char :=
  ((l.dropWhile isJsSpace).reverse.dropWhile isJsSpace).reverse

/-- Model of `s.trim()`. -/
def jsTrim (s : String) : String := String.mk (jsTrimList s.data)

/-- Model of `s.replace(/[-\s]/g, '')`: drop every hyphen and whitespace char. -/
def stripDashSpace (s : String) : String :=
  String.mk (s.data.filter (fun c => !(c == '-' || isJsSpace c)))

/-- Model of `/^[A-Za-z]/i.test(s)`: the first character is an ASCII letter. -/
def startsWithAsciiLetter (s : String) : Bool :=
  match s.data with
  | [] => false
  | c :: _ => c.isAlpha

/-! ## Data model of the ingest store (`Dashboard.tsx`) -/

/-- The payload of one ingested row, `Omit<AnimalData, 'id' | 'selected'>`
in the source: traceability number, breed label, production/birth date and
the optional delivery metadata extracted from label files. -/
structure AnimalRecord where
  animalNumber : String
  breed : String
  birthDate : String
  destination : Option String
  cutName : Option String
  processingType : Option String
  weightKg : Option String
  deriving DecidableEq, Repr

/-- A stored row (`AnimalData` in the source): a record plus the synthetic
row id and the selection flag. -/
structure AnimalData extends AnimalRecord where
  id : Nat
  selected : Bool
  deriving DecidableEq, Repr

/-- The composite identity key used for deduplication
(`rowKey` in `addAnimals`): the five fields joined with `'|'`,
absent fields defaulting to the empty string. -/
def rowKey (item : AnimalRecord) : String :=
  String.intercalate "|"
    [item.animalNumber, item.destination.getD "", item.cutName.getD "",
     item.processingType.getD "", item.weightKg.getD ""]

/-- The business-rule exclusion test of `addAnimals`:
`/^[A-Za-z]/i.test(item.animalNumber.replace(/[-\s]/g, ''))`. -/
def isExcludedRec (item : AnimalRecord) : Bool :=
  startsWithAsciiLetter (stripDashSpace item.animalNumber)

/-- How a single incoming record was classified by one `addAnimals` call. -/
inductive RecClass where
  | added
  | dup
  | excluded
  deriving DecidableEq, Repr

/-- Result of the per-record loop of `addAnimals`: the list of accepted rows,
the duplicate and excluded tallies, the per-record classification, and the
final state of the `existingKeys` set. -/
structure GoResult where
  added : List AnimalData
  dupCount : Nat
  exclCount : Nat
  classes : List RecClass
  keys : List String
  deriving DecidableEq, Repr

/-- The `for (const item of newItems)` loop of `addAnimals`, with the
`existingKeys` set represented as a list (membership is all that is used)
and `nextId` threaded explicitly. -/
def addAnimalsGo : List AnimalRecord → List String → Nat → GoResult
  | [], keys, _ => ⟨[], 0, 0, [], keys⟩
  | item :: rest, keys, nextId =>
    if isExcludedRec item then
      let r := addAnimalsGo rest keys nextId
      ⟨r.added, r.dupCount, r.exclCount + 1, RecClass.excluded :: r.classes, r.keys⟩
    else if rowKey item ∈ keys then
      let r := addAnimalsGo rest keys nextId
      ⟨r.added, r.dupCount + 1, r.exclCount, RecClass.dup :: r.classes, r.keys⟩
    else
      let r := addAnimalsGo rest (rowKey item :: keys) (nextId + 1)
      ⟨⟨item, nextId, false⟩ :: r.added, r.dupCount, r.exclCount,
        RecClass.added :: r.classes, r.keys⟩

/-- Identity keys of the current row list (`animalList.map(rowKey)`). -/
def keysOf (rows : List AnimalData) : List String :=
  rows.map (fun a => rowKey a.toAnimalRecord)

/-- Observable outcome of one `addAnimals` call: the row list after the call
plus the three counts and the per-record classification. -/
structure AddResult where
  rows : List AnimalData
  addedCount : Nat
  duplicateCount : Nat
  excludedCount : Nat
  classes : List RecClass
  deriving DecidableEq, Repr

/-- Model of `addAnimals` (`Dashboard.tsx`): seed the key set from the
current rows, take `nextId = Math.max(0, ...ids) + 1`, run the loop and
append the accepted rows. -/
def addAnimals (store : List AnimalData) (items : List AnimalRecord) : AddResult :=
  let g := addAnimalsGo items (keysOf store) ((store.map (fun a => a.id)).foldl max 0 + 1)
  ⟨store ++ g.added, g.added.length, g.dupCount, g.exclCount, g.classes⟩

/-! ## Label parser (`processTxtFile` in `Dashboard.tsx`) -/

/-- Model of `text.split(/\r?\n/)` on the character list: split at every
`'\n'`, also consuming one `'\r'` directly before it. -/
def splitNewlinesAux : List Char → List Char → List (List Char)
  | [], acc => [acc.reverse]
  | '\r' :: '\n' :: rest, acc => acc.reverse :: splitNewlinesAux rest []
  | '\n' :: rest, acc => acc.reverse :: splitNewlinesAux rest []
  | c :: rest, acc => splitNewlinesAux rest (c :: acc)

/-- Model of `line.split('|')` on the character list. -/
def pipeSplitAux : List Char → List Char → List (List Char)
  | [], acc => [acc.reverse]
  | '|' :: rest, acc => acc.reverse :: pipeSplitAux rest []
  | c :: rest, acc => pipeSplitAux rest (c :: acc)

/-- Model of `line.split('|')` producing strings. -/
def pipeSplit (s : String) : List String :=
  (pipeSplitAux s.data []).map String.mk

/-- Model of `/^\d{8}$/.test(s)`: exactly eight decimal digits. -/
def isDigits8 (s : String) : Bool :=
  s.data.length == 8 && s.data.all Char.isDigit

/-- Helper for the lazy regex `/^(.+?)\[(.+?)\]$/` after the trailing `']'`
has been removed: split at the first `'['` preceded by at least one
character and followed by at least one character (ineligible brackets are
swallowed by the lazy first group, just as the regex backtracks). -/
def splitFirstBracket : List Char → List Char → Option (List Char × List Char)
  | _, [] => none
  | acc, '[' :: rest =>
    if acc.isEmpty || rest.isEmpty then splitFirstBracket ('[' :: acc) rest
    else some (acc.reverse, rest)
  | acc, c :: rest => splitFirstBracket (c :: acc) rest

/-- Model of `s.match(/^(.+?)\[(.+?)\]$/)`: the two captured groups, when the
string ends with `']'` and an eligible opening bracket exists. -/
def matchProduct (s : String) : Option (String × String) :=
  match s.data.getLast? with
  | some ']' =>
    match splitFirstBracket [] s.data.dropLast with
    | some (g1, g2) => some (String.mk g1, String.mk g2)
    | none => none
  | _ => none

/-- Model of `s.replace(/kg$/i, '')`: drop a trailing case-insensitive
`kg` suffix. -/
def stripKgSuffix (s : String) : String :=
  match s.data.reverse with
  | g :: k :: _ =>
    if (g == 'g' || g == 'G') && (k == 'k' || k == 'K') then
      String.mk (s.data.take (s.data.length - 2))
    else s
  | _ => s

/-- Helper for `/\([^)]*\)$/` after the trailing `')'` has been removed:
the regex matches from the first `'('` that has no later `')'` in the
remaining text; return the text before that bracket. -/
def parenSplitAux : List Char → List Char → Option (List Char)
  | _, [] => none
  | acc, '(' :: rest =>
    if rest.all (fun c => !(c == ')')) then some acc.reverse
    else parenSplitAux ('(' :: acc) rest
  | acc, c :: rest => parenSplitAux (c :: acc) rest

/-- Model of `s.replace(/\([^)]*\)$/, '')`: strip one trailing parenthesised
group containing no `')'`. -/
def stripParenSuffix (s : String) : String :=
  match s.data.getLast? with
  | some ')' =>
    match parenSplitAux [] s.data.dropLast with
    | some pre => String.mk pre
    | none => s
  | _ => s

/-- Model of `/^[A-Z]\d{10,}/.test(s)`: an uppercase ASCII letter followed
by at least ten decimal digits. -/
def isLabelId (s : String) : Bool :=
  match s.data with
  | [] => false
  | c :: rest => c.isUpper && decide (10 ≤ rest.length) && (rest.take 10).all Char.isDigit

/-- One iteration of the `while (i < lines.length)` loop of `processTxtFile`
applied to the current line and the following line (`''` when absent):
the records pushed for this iteration and whether two lines were consumed. -/
def parseStep (line1 line2 : String) : List AnimalRecord × Bool :=
  let parts1 := pipeSplit line1
  let parts2 := pipeSplit line2
  if !isDigits8 (jsTrim (parts1.head?.getD "")) then ([], false)
  else
    let rawDate := jsTrim ((parts1.get? 0).getD "")
    let productPart := jsTrim ((parts1.get? 1).getD "")
    let rawDestination := jsTrim ((parts1.get? 2).getD "")
    let rawProcType := jsTrim ((parts1.get? 3).getD "")
    let rawWeight := jsTrim ((parts1.get? 4).getD "")
    let traceNo1 := jsTrim ((parts1.get? 5).getD "")
    let traceNo2 := jsTrim ((parts2.get? 0).getD "")
    let productionDate :=
      if rawDate.data.length == 8 then
        String.mk (rawDate.data.take 4) ++ "-" ++
          String.mk ((rawDate.data.drop 4).take 2) ++ "-" ++
          String.mk (rawDate.data.drop 6)
      else rawDate
    let productName := match matchProduct productPart with
      | some (g1, _) => jsTrim g1
      | none => productPart
    let partName := match matchProduct productPart with
      | some (_, g2) => jsTrim g2
      | none => "-"
    let weight := stripKgSuffix rawWeight
    let destination :=
      let d := jsTrim (stripParenSuffix rawDestination)
      if d == "" then none else some d
    let breedLabel := productName ++ " / " ++ partName ++ " (" ++ weight ++ "kg)"
    let recs :=
      if traceNo1 != "" && !startsWithAsciiLetter traceNo1 then
        [{ animalNumber := traceNo1, breed := breedLabel, birthDate := productionDate,
           destination := destination,
           cutName := if partName != "-" then some partName else none,
           processingType := if rawProcType != "" then some rawProcType else none,
           weightKg := if weight != "" then some weight else none }]
      else []
    (recs, traceNo2 != "" && isLabelId traceNo2)

/-- The record-grouping loop of `processTxtFile`: lines are consumed one or
two at a time (`i += ... ? 2 : 1`). -/
def parseLabelLoop : List String → List AnimalRecord
  | [] => []
  | [l1] => (parseStep l1 "").1
  | l1 :: l2 :: rest =>
    let s := parseStep l1 l2
    s.1 ++ (if s.2 then parseLabelLoop rest else parseLabelLoop (l2 :: rest))

/-- Model of the text-processing part of `processTxtFile`: strip a BOM,
split into lines, trim each line, drop empty lines, then run the
record-grouping loop. -/
def parseLabelText (s : String) : List AnimalRecord :=
  let noBom : List Char :=
    match s.data with
    | '\uFEFF' :: rest => rest
    | l => l
  let lines :=
    ((splitNewlinesAux noBom []).map jsTrimList).filter (fun l => !l.isEmpty)
  parseLabelLoop (lines.map String.mk)

/-! ## Certificate resolution engine (`GradeCertificatePrintModal.tsx`) -/

/-- A selected row as received by the print modal (`AnimalItem` in the
source): the stored row minus the selection flag. -/
structure AnimalItem where
  id : Nat
  animalNumber : String
  breed : String
  birthDate : String
  destination : Option String
  cutName : Option String
  processingType : Option String
  weightKg : Option String
  deriving DecidableEq, Repr

/-- Model of `isValidEkapeNo`: `/^\d{12}$/.test(no.replace(/[-\s]/g, ''))`. -/
def isValidEkapeNo (no : String) : Bool :=
  (stripDashSpace no).data.length == 12 && (stripDashSpace no).data.all Char.isDigit

/-- Lookup state of one row (`CertItem['status']`). -/
inductive CertStatus where
  | loading
  | success
  | error
  | skipped
  deriving DecidableEq, Repr

/-- The JSON body of a settled `fetch`: either the grading payload of a
successful response (left opaque, of type `α`) or an object carrying an
optional `error` field. -/
inductive JsonVal (α : Type) where
  | payload (data : α)
  | errObj (error : Option String)
  deriving DecidableEq, Repr

/-- `json.error` read off a JSON body (`undefined` on a grading payload). -/
def jsonError {α : Type} : JsonVal α → Option String
  | .payload _ => none
  | .errObj e => e

/-- One entry of `certs` (`CertItem` in the source). The current component
additionally stores a verbatim copy of the originating row in an `animal`
field; resolution never changes or reads it, so it is not modelled. -/
structure CertItem (α : Type) where
  animalNo : String
  status : CertStatus
  errorMsg : Option String
  data : Option (JsonVal α)
  deriving DecidableEq, Repr

/-- How one `fetch('/api/grade-certificate?animalNo=…')` settles, as observed
by the engine: a response with its `ok` flag and parsed JSON body, or a
thrown exception (`some msg` when it is an `Error` carrying that message). -/
inductive FetchOutcome (α : Type) where
  | response (ok : Bool) (json : JsonVal α)
  | thrown (msg : Option String)
  deriving DecidableEq, Repr

/-- The initial `certs` entry built by the `useState` initialiser: `loading`
for a valid 12-digit number, otherwise immediately `skipped` with the
fixed diagnostic message. -/
def initialCert {α : Type} (a : AnimalItem) : CertItem α :=
  if isValidEkapeNo a.animalNumber then
    ⟨a.animalNumber, CertStatus.loading, none, none⟩
  else
    ⟨a.animalNumber, CertStatus.skipped,
      some ("EKAPE 조회 불가 (12자리 숫자가 아님: " ++ a.animalNumber ++ ")"), none⟩

/-- The initial `certs` state for a selected-row list. -/
def initialCerts {α : Type} (animals : List AnimalItem) : List (CertItem α) :=
  animals.map initialCert

/-- Model of `[...new Set(list)]`: first occurrences, in encounter order. -/
def dedupKeepFirstAux : List String → List String → List String
  | [], _ => []
  | x :: xs, seen =>
    if x ∈ seen then dedupKeepFirstAux xs seen
    else x :: dedupKeepFirstAux xs (x :: seen)

/-- Model of `[...new Set(l)]`. -/
def dedupKeepFirst (l : List String) : List String := dedupKeepFirstAux l []

/-- `uniqueNos` of the current `fetchAll`: strip every selected number, keep
those passing the 12-digit test, deduplicate. One lookup is issued per
element of this list. -/
def uniqueNos (animals : List AnimalItem) : List String :=
  dedupKeepFirst
    ((animals.map (fun a => stripDashSpace a.animalNumber)).filter
      (fun no => isValidEkapeNo no))

/-- One slot of the `cache` map: `{ ok, json }`. -/
structure CacheEntry (α : Type) where
  ok : Bool
  json : JsonVal α
  deriving DecidableEq, Repr

/-- The cache slot written when the lookup of one number settles: the
response verbatim, or `{ ok: false, json: { error: … } }` when the fetch
threw (message defaulted to the network-error string). -/
def settleFetch {α : Type} : FetchOutcome α → CacheEntry α
  | .response ok json => ⟨ok, json⟩
  | .thrown msg => ⟨false, JsonVal.errObj (some (msg.getD "네트워크 오류"))⟩

/-- The completed `cache` map after `await Promise.all(uniqueNos.map(…))`:
one slot per distinct number (association-list model of the `Map`). -/
def buildCache {α : Type} (oracle : String → FetchOutcome α) (nos : List String) :
    List (String × CacheEntry α) :=
  nos.map (fun no => (no, settleFetch (oracle no)))

/-- `cache.get(no)`. -/
def cacheGet {α : Type} (cache : List (String × CacheEntry α)) (no : String) :
    Option (CacheEntry α) :=
  (cache.find? (fun p => p.1 == no)).map (fun p => p.2)

/-- The reconciliation pass (`setCerts(prev => prev.map(…))`) of the current
`fetchAll`: skipped rows are returned unchanged, rows whose stripped number
misses the cache are returned unchanged, and every other row becomes
`success` with the cached payload or `error` with the cached message
(defaulted to the lookup-failure string). -/
def reconcileCert {α : Type} (cache : List (String × CacheEntry α)) (c : CertItem α) :
    CertItem α :=
  if c.status == CertStatus.skipped then c
  else
    match cacheGet cache (stripDashSpace c.animalNo) with
    | none => c
    | some entry =>
      if entry.ok then { c with status := CertStatus.success, data := some entry.json }
      else { c with status := CertStatus.error,
                    errorMsg := some ((jsonError entry.json).getD "조회 실패") }

/-- Final `certs` state of the current (deduplicating) `fetchAll`, as a
function of how each distinct number's lookup settles. -/
def fetchAllDedup {α : Type} (oracle : String → FetchOutcome α) (animals : List AnimalItem) :
    List (CertItem α) :=
  (initialCerts animals).map (reconcileCert (buildCache oracle (uniqueNos animals)))

/-- `total = certs.length` (the progress denominator). -/
def totalCount {α : Type} (certs : List (CertItem α)) : Nat := certs.length

/-- Model of `loaded = certs.filter((c) => c.status !== 'loading').length`
(the progress numerator). -/
def loadedCount {α : Type} (certs : List (CertItem α)) : Nat :=
  (certs.filter (fun c => c.status != CertStatus.loading)).length

/-- The sequence of `certs` states observable during one run of the current
`fetchAll`, one entry per suspension point: the initial state, the state
after each distinct-number lookup settles (unchanged — each lookup writes
only into the run-local `cache`), and the state after the single
`setCerts` reconciliation at the end. -/
def certsTrace {α : Type} (oracle : String → FetchOutcome α) (animals : List AnimalItem) :
    List (List (CertItem α)) :=
  initialCerts animals ::
    ((uniqueNos animals).map (fun _ => initialCerts animals) ++
      [fetchAllDedup oracle animals])

/-- Per-row state rewrite of the earlier `fetchAll` (first component in the
file) once the row's own fetch settles. -/
def oldUpdate {α : Type} (oracle : String → FetchOutcome α) (a : AnimalItem)
    (c : CertItem α) : CertItem α :=
  match oracle (stripDashSpace a.animalNumber) with
  | FetchOutcome.response true json =>
    { c with status := CertStatus.success, data := some json }
  | FetchOutcome.response false json =>
    { c with status := CertStatus.error, errorMsg := some ((jsonError json).getD "조회 실패") }
  | FetchOutcome.thrown msg =>
    { c with status := CertStatus.error, errorMsg := some (msg.getD "네트워크 오류") }

/-- Model of `prev.map((c, i) => i === idx ? … : c)` with the running index
starting at `k`. -/
def mapIdxFrom {β : Type} (f : Nat → β → β) : Nat → List β → List β
  | _, [] => []
  | k, c :: rest => f k c :: mapIdxFrom f (k + 1) rest

/-- The effect on `certs` of the earlier `fetchAll`'s closure for row `idx`
settling: a row with an invalid number returns before any `setCerts`;
a valid row rewrites its own index only. -/
def applyOldStep {α : Type} (oracle : String → FetchOutcome α) (animals : List AnimalItem)
    (certs : List (CertItem α)) (idx : Nat) : List (CertItem α) :=
  match animals.get? idx with
  | none => certs
  | some a =>
    if isValidEkapeNo a.animalNumber then
      mapIdxFrom (fun i c => if i == idx then oldUpdate oracle a c else c) 0 certs
    else certs

/-- Final `certs` state of the earlier per-row `fetchAll`, where `order`
lists the row indices in the order in which their fetches settle. -/
def fetchAllPerRow {α : Type} (oracle : String → FetchOutcome α) (animals : List AnimalItem)
    (order : List Nat) : List (CertItem α) :=
  order.foldl (applyOldStep oracle animals) (initialCerts animals)

/-- The observable resolution result of one row: status, success payload,
error message. -/
def certOutcome {α : Type} (c : CertItem α) :
    CertStatus × Option (JsonVal α) × Option String :=
  (c.status, c.data, c.errorMsg)

/-! ## Lemmas about the ingest store loop -/

theorem go_classes_length (items : List AnimalRecord) : ∀ keys n,
    (addAnimalsGo items keys n).classes.length = items.length := by
  induction items with
  | nil => intro keys n; rfl
  | cons item rest ih =>
    intro keys n
    by_cases h : isExcludedRec item = true
    · simp [addAnimalsGo, h, ih]
    · by_cases h2 : rowKey item ∈ keys
      · simp [addAnimalsGo, h, h2, ih]
      · simp [addAnimalsGo, h, h2, ih]

theorem go_counts_partition (items : List AnimalRecord) : ∀ keys n,
    (addAnimalsGo items keys n).added.length + (addAnimalsGo items keys n).dupCount +
      (addAnimalsGo items keys n).exclCount = items.length := by
  induction items with
  | nil => intro keys n; rfl
  | cons item rest ih =>
    intro keys n
    by_cases h : isExcludedRec item = true
    · have := ih keys n
      simp [addAnimalsGo, h]
      omega
    · by_cases h2 : rowKey item ∈ keys
      · have := ih keys n
        simp [addAnimalsGo, h, h2]
        omega
      · have := ih (rowKey item :: keys) (n + 1)
        simp [addAnimalsGo, h, h2]
        omega

theorem go_keys_mono (items : List AnimalRecord) : ∀ keys n k, k ∈ keys →
    k ∈ (addAnimalsGo items keys n).keys := by
  induction items with
  | nil => intro keys n k hk; exact hk
  | cons item rest ih =>
    intro keys n k hk
    by_cases h : isExcludedRec item = true
    · simpa [addAnimalsGo, h] using ih keys n k hk
    · by_cases h2 : rowKey item ∈ keys
      · simpa [addAnimalsGo, h, h2] using ih keys n k hk
      · simpa [addAnimalsGo, h, h2] using ih (rowKey item :: keys) (n + 1) k (List.mem_cons_of_mem _ hk)

theorem go_keys_mem (items : List AnimalRecord) : ∀ keys n (r : AnimalRecord),
    r ∈ items → isExcludedRec r = false →
    rowKey r ∈ (addAnimalsGo items keys n).keys := by
  induction items with
  | nil => intro keys n r hr; exact absurd hr (List.not_mem_nil r)
  | cons item rest ih =>
    intro keys n r hr hex
    rcases List.mem_cons.mp hr with rfl | hr
    · by_cases h2 : rowKey r ∈ keys
      · simpa [addAnimalsGo, hex, h2] using go_keys_mono rest keys n _ h2
      · simpa [addAnimalsGo, hex, h2] using
          go_keys_mono rest (rowKey r :: keys) (n + 1) _ (List.mem_cons_self _ _)
    · by_cases h : isExcludedRec item = true
      · simpa [addAnimalsGo, h] using ih keys n r hr hex
      · by_cases h2 : rowKey item ∈ keys
        · simpa [addAnimalsGo, h, h2] using ih keys n r hr hex
        · simpa [addAnimalsGo, h, h2] using ih (rowKey item :: keys) (n + 1) r hr hex

theorem go_keys_iff (items : List AnimalRecord) : ∀ keys n k,
    k ∈ (addAnimalsGo items keys n).keys ↔
      k ∈ keysOf (addAnimalsGo items keys n).added ∨ k ∈ keys := by
  induction items with
  | nil => intro keys n k; simp [addAnimalsGo, keysOf]
  | cons item rest ih =>
    intro keys n k
    by_cases h : isExcludedRec item = true
    · simpa [addAnimalsGo, h] using ih keys n k
    · by_cases h2 : rowKey item ∈ keys
      · simpa [addAnimalsGo, h, h2] using ih keys n k
      · simp only [addAnimalsGo, h, if_false, h2, keysOf, List.map_cons]
        rw [show keysOf = fun rows => rows.map (fun a => rowKey a.toAnimalRecord) from rfl] at ih
        constructor
        · intro hk
          rcases (ih (rowKey item :: keys) (n + 1) k).mp hk with hk | hk
          · exact Or.inl (List.mem_cons_of_mem _ hk)
          · rcases List.mem_cons.mp hk with rfl | hk
            · exact Or.inl (List.mem_cons_self _ _)
            · exact Or.inr hk
        · intro hk
          apply (ih (rowKey item :: keys) (n + 1) k).mpr
          rcases hk with hk | hk
          · rcases List.mem_cons.mp hk with rfl | hk
            · exact Or.inr (List.mem_cons_self _ _)
            · exact Or.inl hk
          · exact Or.inr (List.mem_cons_of_mem _ hk)

theorem go_all_present (items : List AnimalRecord) : ∀ keys n,
    (∀ r ∈ items, isExcludedRec r = false → rowKey r ∈ keys) →
    (addAnimalsGo items keys n).added = [] ∧
    (addAnimalsGo items keys n).classes =
      items.map (fun r => if isExcludedRec r then RecClass.excluded else RecClass.dup) := by
  induction items with
  | nil => intro keys n _; exact ⟨rfl, rfl⟩
  | cons item rest ih =>
    intro keys n h
    by_cases hex : isExcludedRec item = true
    · have := ih keys n (fun r hr he => h r (List.mem_cons_of_mem _ hr) he)
      simp [addAnimalsGo, hex, this.1, this.2]
    · have h2 : rowKey item ∈ keys :=
        h item (List.mem_cons_self _ _) (Bool.not_eq_true _ ▸ hex)
      have := ih keys n (fun r hr he => h r (List.mem_cons_of_mem _ hr) he)
      simp [addAnimalsGo, hex, h2, this.1, this.2]

theorem go_classes_excluded (items : List AnimalRecord) : ∀ keys n,
    List.Forall₂ (fun c r => c = RecClass.excluded ↔ isExcludedRec r = true)
      (addAnimalsGo items keys n).classes items := by
  induction items with
  | nil => intro keys n; exact List.Forall₂.nil
  | cons item rest ih =>
    intro keys n
    by_cases hex : isExcludedRec item = true
    · simp only [addAnimalsGo, hex, if_true]
      exact List.Forall₂.cons (by simp [hex]) (ih keys n)
    · by_cases h2 : rowKey item ∈ keys
      · simp only [addAnimalsGo, hex, if_false, h2, if_true]
        exact List.Forall₂.cons (by simp [hex]) (ih keys n)
      · simp only [addAnimalsGo, hex, if_false, h2]
        exact List.Forall₂.cons (by simp [hex]) (ih (rowKey item :: keys) (n + 1))

theorem keysOf_append (a b : List AnimalData) : keysOf (a ++ b) = keysOf a ++ keysOf b := by
  simp [keysOf]

theorem go_append (X Y : List AnimalRecord) : ∀ keys n,
    addAnimalsGo (X ++ Y) keys n =
      { added := (addAnimalsGo X keys n).added ++
          (addAnimalsGo Y (addAnimalsGo X keys n).keys
            (n + (addAnimalsGo X keys n).added.length)).added,
        dupCount := (addAnimalsGo X keys n).dupCount +
          (addAnimalsGo Y (addAnimalsGo X keys n).keys
            (n + (addAnimalsGo X keys n).added.length)).dupCount,
        exclCount := (addAnimalsGo X keys n).exclCount +
          (addAnimalsGo Y (addAnimalsGo X keys n).keys
            (n + (addAnimalsGo X keys n).added.length)).exclCount,
        classes := (addAnimalsGo X keys n).classes ++
          (addAnimalsGo Y (addAnimalsGo X keys n).keys
            (n + (addAnimalsGo X keys n).added.length)).classes,
        keys := (addAnimalsGo Y (addAnimalsGo X keys n).keys
          (n + (addAnimalsGo X keys n).added.length)).keys } := by
  induction X with
  | nil => intro keys n; simp [addAnimalsGo]
  | cons item rest ih =>
    intro keys n
    rw [List.cons_append]
    by_cases h : isExcludedRec item = true
    · simp only [addAnimalsGo, h, if_true]
      rw [ih keys n]
      simp [Nat.add_assoc, Nat.add_comm, Nat.add_left_comm]
    · by_cases h2 : rowKey item ∈ keys
      · simp only [addAnimalsGo, h, if_false, h2, if_true]
        rw [ih keys n]
        simp [Nat.add_assoc, Nat.add_comm, Nat.add_left_comm]
      · simp only [addAnimalsGo, h, if_false, h2]
        rw [ih (rowKey item :: keys) (n + 1)]
        simp [Nat.add_assoc, Nat.add_comm, Nat.add_left_comm]

/-- Claim C2 (amended): repeating a batch adds nothing — the second call
reports `addedCount = 0`, leaves the row list exactly as after the first
call, and classifies deterministically: records excluded by the first call
are excluded again (exclusion depends only on the record), and every other
record of the batch — whether it was added or flagged duplicate the first
time — is classified `duplicate` on the second call. -/
theorem addAnimals_repeat_batch (store : List AnimalData) (B : List AnimalRecord) :
    (addAnimals (addAnimals store B).rows B).addedCount = 0 ∧
    (addAnimals (addAnimals store B).rows B).rows = (addAnimals store B).rows ∧
    (addAnimals (addAnimals store B).rows B).classes =
      B.map (fun r => if isExcludedRec r then RecClass.excluded else RecClass.dup) ∧
    List.Forall₂ (fun c r => c = RecClass.excluded ↔ isExcludedRec r = true)
      (addAnimals store B).classes B := by
  have hcov : ∀ r ∈ B, isExcludedRec r = false →
      rowKey r ∈ keysOf (addAnimals store B).rows := by
    intro r hr he
    have h1 := go_keys_mem B (keysOf store)
      ((store.map (fun a => a.id)).foldl max 0 + 1) r hr he
    have h2 := (go_keys_iff B (keysOf store)
      ((store.map (fun a => a.id)).foldl max 0 + 1) (rowKey r)).mp h1
    show rowKey r ∈ keysOf (store ++ _)
    rw [keysOf_append]
    rcases h2 with h2 | h2
    · exact List.mem_append.mpr (Or.inr h2)
    · exact List.mem_append.mpr (Or.inl h2)
  have hall := go_all_present B (keysOf (addAnimals store B).rows)
    (((addAnimals store B).rows.map (fun a => a.id)).foldl max 0 + 1) hcov
  refine ⟨?_, ?_, hall.2, go_classes_excluded B (keysOf store) _⟩
  · show (addAnimalsGo B (keysOf (addAnimals store B).rows)
      (((addAnimals store B).rows.map (fun a => a.id)).foldl max 0 + 1)).added.length = 0
    rw [hall.1]
    rfl
  · show (addAnimals store B).rows ++ (addAnimalsGo B (keysOf (addAnimals store B).rows)
      (((addAnimals store B).rows.map (fun a => a.id)).foldl max 0 + 1)).added
      = (addAnimals store B).rows
    rw [hall.1, List.append_nil]

/-- Claim C2, counterexample to the claim as stated: one fresh non-excluded
record is classified `added` by the first call but `duplicate` by the
second, so it is not classified identically across the two calls (it is
neither duplicate both times nor excluded both times), even though the
second call reports `addedCount = 0` and leaves the rows unchanged. -/
theorem addAnimals_repeat_batch_counterexample :
    (addAnimals [] [⟨"002192205667", "-", "-", none, none, none, none⟩]).classes
        = [RecClass.added] ∧
    (addAnimals (addAnimals [] [⟨"002192205667", "-", "-", none, none, none, none⟩]).rows
        [⟨"002192205667", "-", "-", none, none, none, none⟩]).classes
        = [RecClass.dup] ∧
    ¬(RecClass.added = RecClass.dup ∨ RecClass.added = RecClass.excluded) := by
  decide

theorem go_cons_excluded (b : AnimalRecord) (l2 : List AnimalRecord)
    (hb : isExcludedRec b = true) : ∀ keys n,
    addAnimalsGo (b :: l2) keys n =
      ⟨(addAnimalsGo l2 keys n).added, (addAnimalsGo l2 keys n).dupCount,
        (addAnimalsGo l2 keys n).exclCount + 1,
        RecClass.excluded :: (addAnimalsGo l2 keys n).classes,
        (addAnimalsGo l2 keys n).keys⟩ := by
  intro keys n
  simp [addAnimalsGo, hb]

/-- Claim C6: a record whose traceability number starts with a letter after
stripping hyphens and spaces is never added — the row list is exactly what
it would be without that record — the excluded count increments by one
while the added and duplicate counts are unchanged, the record itself is
classified `excluded` (and only `excluded`), and the three counts
partition the batch, so no record is double-counted. -/
theorem addAnimals_letter_excluded (store : List AnimalData)
    (l1 l2 : List AnimalRecord) (b : AnimalRecord)
    (hb : startsWithAsciiLetter (stripDashSpace b.animalNumber) = true) :
    (addAnimals store (l1 ++ b :: l2)).rows = (addAnimals store (l1 ++ l2)).rows ∧
    (addAnimals store (l1 ++ b :: l2)).addedCount
      = (addAnimals store (l1 ++ l2)).addedCount ∧
    (addAnimals store (l1 ++ b :: l2)).duplicateCount
      = (addAnimals store (l1 ++ l2)).duplicateCount ∧
    (addAnimals store (l1 ++ b :: l2)).excludedCount
      = (addAnimals store (l1 ++ l2)).excludedCount + 1 ∧
    (addAnimals store (l1 ++ b :: l2)).classes
      = (addAnimals store (l1 ++ l2)).classes.take l1.length ++
          RecClass.excluded :: (addAnimals store (l1 ++ l2)).classes.drop l1.length ∧
    (addAnimals store (l1 ++ b :: l2)).addedCount +
        (addAnimals store (l1 ++ b :: l2)).duplicateCount +
        (addAnimals store (l1 ++ b :: l2)).excludedCount
      = l1.length + 1 + l2.length := by
  have hb2 : isExcludedRec b = true := hb
  have hA := go_append l1 (b :: l2) (keysOf store)
    ((store.map (fun a => a.id)).foldl max 0 + 1)
  have hB := go_append l1 l2 (keysOf store)
    ((store.map (fun a => a.id)).foldl max 0 + 1)
  have hpart := go_counts_partition (l1 ++ b :: l2) (keysOf store)
    ((store.map (fun a => a.id)).foldl max 0 + 1)
  have hlen := go_classes_length l1 (keysOf store)
    ((store.map (fun a => a.id)).foldl max 0 + 1)
  simp only [addAnimals, hA, hB,
    go_cons_excluded b l2 hb2] at hpart ⊢
  simp only [List.length_append, List.length_cons] at hpart
  refine ⟨trivial, trivial, trivial, by simp [Nat.add_assoc], ?_, by
    simp only [List.length_append] at hpart ⊢
    omega⟩
  rw [← hlen]
  simp [List.take_left, List.drop_left]

/-- A letter-prefixed record used to witness the exclusion rule. -/
def recLetter : AnimalRecord :=
  ⟨"L00123456789", "한우", "2025-01-01", some "학교", none, none, none⟩

/-- Claim C6 witness: the record `L00123456789` from the spec's test, added
to an empty store, is excluded and never enters the rows. -/
theorem addAnimals_letter_excluded_witness :
    startsWithAsciiLetter (stripDashSpace recLetter.animalNumber) = true ∧
    ((addAnimals [] [recLetter]).rows = (addAnimals [] []).rows ∧
      (addAnimals [] [recLetter]).addedCount = (addAnimals [] []).addedCount ∧
      (addAnimals [] [recLetter]).duplicateCount = (addAnimals [] []).duplicateCount ∧
      (addAnimals [] [recLetter]).excludedCount = (addAnimals [] []).excludedCount + 1 ∧
      (addAnimals [] [recLetter]).classes
        = (addAnimals [] []).classes.take 0 ++
            RecClass.excluded :: (addAnimals [] []).classes.drop 0 ∧
      (addAnimals [] [recLetter]).addedCount + (addAnimals [] [recLetter]).duplicateCount +
          (addAnimals [] [recLetter]).excludedCount = 0 + 1 + 0) :=
  ⟨by decide, addAnimals_letter_excluded [] [] [] recLetter (by decide)⟩

/-! ## The composite key: shape, collisions, and conditional injectivity -/

theorem rowKey_data (item : AnimalRecord) :
    (rowKey item).data =
      item.animalNumber.data ++ '|' :: ((item.destination.getD "").data ++
        '|' :: ((item.cutName.getD "").data ++
          '|' :: ((item.processingType.getD "").data ++
            '|' :: (item.weightKg.getD "").data))) := by
  simp [rowKey, String.intercalate, String.intercalate.go, String.data_append]

/-- Whether a string contains no `'|'` (the join character of `rowKey`). -/
def pipeFree (s : String) : Bool := s.data.all (fun c => !(c == '|'))

/-- Whether all five identity fields of a record are free of `'|'`. -/
def pipeFreeRec (r : AnimalRecord) : Bool :=
  pipeFree r.animalNumber && pipeFree (r.destination.getD "") &&
    pipeFree (r.cutName.getD "") && pipeFree (r.processingType.getD "") &&
    pipeFree (r.weightKg.getD "")

theorem pipeFree_not_mem (s : String) (h : pipeFree s = true) : '|' ∉ s.data := by
  intro hmem
  have := List.all_eq_true.mp h _ hmem
  simp at this

theorem sep_append_inj {α : Type} (sep : α) (a : List α) : ∀ b t u : List α,
    sep ∉ a → sep ∉ b → a ++ sep :: t = b ++ sep :: u → a = b ∧ t = u := by
  induction a with
  | nil =>
    intro b t u _ hb h
    cases b with
    | nil => exact ⟨rfl, by simpa using h⟩
    | cons d b2 =>
      rw [List.nil_append, List.cons_append] at h
      injection h with h1 h2
      subst h1
      exact absurd (List.mem_cons_self _ _) hb
  | cons c a2 ih =>
    intro b t u ha hb h
    cases b with
    | nil =>
      rw [List.cons_append, List.nil_append] at h
      injection h with h1 h2
      subst h1
      exact absurd (List.mem_cons_self _ _) ha
    | cons d b2 =>
      rw [List.cons_append, List.cons_append] at h
      injection h with h1 h2
      subst h1
      have ha2 : sep ∉ a2 := fun hx => ha (List.mem_cons_of_mem _ hx)
      have hb2 : sep ∉ b2 := fun hx => hb (List.mem_cons_of_mem _ hx)
      rcases ih b2 t u ha2 hb2 h2 with ⟨hab, htu⟩
      exact ⟨by rw [hab], htu⟩

/-- On records whose fields avoid `'|'`, equal keys force equal (defaulted)
destinations. -/
theorem rowKey_eq_destination (r1 r2 : AnimalRecord)
    (hp1 : pipeFreeRec r1 = true) (hp2 : pipeFreeRec r2 = true)
    (hn : r1.animalNumber = r2.animalNumber)
    (hk : rowKey r1 = rowKey r2) :
    r1.destination.getD "" = r2.destination.getD "" := by
  have hd1 := congrArg String.data hk
  rw [rowKey_data, rowKey_data, hn] at hd1
  have hd2 := List.append_cancel_left hd1
  injection hd2 with _ hd3
  simp only [pipeFreeRec, Bool.and_eq_true] at hp1 hp2
  have h5 := sep_append_inj '|' (r1.destination.getD "").data
    (r2.destination.getD "").data _ _
    (pipeFree_not_mem _ hp1.1.1.1.2) (pipeFree_not_mem _ hp2.1.1.1.2) hd3
  have h6 := congrArg String.mk h5.1
  simpa using h6

theorem go_cons_mem (b : AnimalRecord) (l2 : List AnimalRecord)
    (hb : isExcludedRec b = false) (keys : List String) (n : Nat)
    (hmem : rowKey b ∈ keys) :
    addAnimalsGo (b :: l2) keys n =
      ⟨(addAnimalsGo l2 keys n).added, (addAnimalsGo l2 keys n).dupCount + 1,
        (addAnimalsGo l2 keys n).exclCount,
        RecClass.dup :: (addAnimalsGo l2 keys n).classes,
        (addAnimalsGo l2 keys n).keys⟩ := by
  simp [addAnimalsGo, hb, hmem]

theorem go_cons_new (b : AnimalRecord) (l2 : List AnimalRecord)
    (hb : isExcludedRec b = false) (keys : List String) (n : Nat)
    (hmem : rowKey b ∉ keys) :
    addAnimalsGo (b :: l2) keys n =
      ⟨⟨b, n, false⟩ :: (addAnimalsGo l2 (rowKey b :: keys) (n + 1)).added,
        (addAnimalsGo l2 (rowKey b :: keys) (n + 1)).dupCount,
        (addAnimalsGo l2 (rowKey b :: keys) (n + 1)).exclCount,
        RecClass.added :: (addAnimalsGo l2 (rowKey b :: keys) (n + 1)).classes,
        (addAnimalsGo l2 (rowKey b :: keys) (n + 1)).keys⟩ := by
  simp [addAnimalsGo, hb, hmem]

/-- Claim C5 (amended): a non-letter-prefixed record is classified duplicate
iff its composite key equals the key of an existing row or of a record
accepted earlier in the same batch; and two records with the same
traceability number whose destinations differ as defaulted strings are
both retained provided no identity field of either record contains the
`'|'` join character. -/
theorem addAnimals_duplicate_iff (store : List AnimalData)
    (l1 l2 : List AnimalRecord) (b : AnimalRecord)
    (hb : isExcludedRec b = false)
    (r1 r2 : AnimalRecord)
    (hr1 : isExcludedRec r1 = false) (hr2 : isExcludedRec r2 = false)
    (hp1 : pipeFreeRec r1 = true) (hp2 : pipeFreeRec r2 = true)
    (hsame : r1.animalNumber = r2.animalNumber)
    (hdiff : r1.destination.getD "" ≠ r2.destination.getD "") :
    ((addAnimals store (l1 ++ b :: l2)).classes.get? l1.length = some RecClass.dup
      ↔ rowKey b ∈ keysOf (addAnimals store l1).rows) ∧
    (addAnimals [] [r1, r2]).addedCount = 2 ∧
    (addAnimals [] [r1, r2]).classes = [RecClass.added, RecClass.added] := by
  refine ⟨?_, ?_, ?_⟩
  · have hA := go_append l1 (b :: l2) (keysOf store)
      ((store.map (fun a => a.id)).foldl max 0 + 1)
    have hlen := go_classes_length l1 (keysOf store)
      ((store.map (fun a => a.id)).foldl max 0 + 1)
    have hkey := go_keys_iff l1 (keysOf store)
      ((store.map (fun a => a.id)).foldl max 0 + 1) (rowKey b)
    have hrows : keysOf (addAnimals store l1).rows
        = keysOf store ++ keysOf (addAnimalsGo l1 (keysOf store)
            ((store.map (fun a => a.id)).foldl max 0 + 1)).added := by
      show keysOf (store ++ _) = _
      rw [keysOf_append]
    show (addAnimalsGo (l1 ++ b :: l2) (keysOf store) _).classes.get? l1.length
        = some RecClass.dup ↔ _
    rw [hA]
    show ((addAnimalsGo l1 (keysOf store) _).classes ++
        (addAnimalsGo (b :: l2) _ _).classes).get? l1.length = some RecClass.dup ↔ _
    rw [← hlen, List.get?_append_right (Nat.le_refl _), Nat.sub_self]
    by_cases hmem : rowKey b ∈ (addAnimalsGo l1 (keysOf store)
        ((store.map (fun a => a.id)).foldl max 0 + 1)).keys
    · rw [go_cons_mem b l2 hb _ _ hmem]
      simp only [List.get?_cons_zero]
      constructor
      · intro _
        rw [hrows]
        rcases hkey.mp hmem with h | h
        · exact List.mem_append.mpr (Or.inr h)
        · exact List.mem_append.mpr (Or.inl h)
      · intro _
        trivial
    · rw [go_cons_new b l2 hb _ _ hmem]
      simp only [List.get?_cons_zero]
      constructor
      · intro h
        exact absurd h (by simp)
      · intro h
        exfalso
        apply hmem
        apply hkey.mpr
        rw [hrows] at h
        rcases List.mem_append.mp h with h | h
        · exact Or.inr h
        · exact Or.inl h
  · have hkne : rowKey r2 ∉ [rowKey r1] := by
      intro hk
      rcases List.mem_singleton.mp hk with hk
      exact hdiff (rowKey_eq_destination r1 r2 hp1 hp2 hsame hk.symm)
    have h1 : rowKey r1 ∉ keysOf ([] : List AnimalData) := by simp [keysOf]
    show (addAnimalsGo [r1, r2] (keysOf []) _).added.length = 2
    rw [go_cons_new r1 [r2] hr1 _ _ h1,
      go_cons_new r2 [] hr2 _ _ (by simpa [keysOf] using hkne)]
    rfl
  · have hkne : rowKey r2 ∉ [rowKey r1] := by
      intro hk
      rcases List.mem_singleton.mp hk with hk
      exact hdiff (rowKey_eq_destination r1 r2 hp1 hp2 hsame hk.symm)
    have h1 : rowKey r1 ∉ keysOf ([] : List AnimalData) := by simp [keysOf]
    show (addAnimalsGo [r1, r2] (keysOf []) _).classes = _
    rw [go_cons_new r1 [r2] hr1 _ _ h1,
      go_cons_new r2 [] hr2 _ _ (by simpa [keysOf] using hkne)]
    rfl

/-- Claim C5, counterexample to the claim as stated: two records with the
same traceability number and different destinations whose composite keys
nevertheless coincide (the fields contain the `'|'` join character); the
second record is flagged duplicate and dropped instead of being retained. -/
theorem addAnimals_distinct_destination_counterexample :
    (AnimalRecord.mk "002191046216" "-" "-" (some "서울|분교") (some "설도") none none
        ).animalNumber
      = (AnimalRecord.mk "002191046216" "-" "-" (some "서울") (some "분교|설도") none none
        ).animalNumber ∧
    (AnimalRecord.mk "002191046216" "-" "-" (some "서울|분교") (some "설도") none none
        ).destination
      ≠ (AnimalRecord.mk "002191046216" "-" "-" (some "서울") (some "분교|설도") none none
        ).destination ∧
    isExcludedRec
      (AnimalRecord.mk "002191046216" "-" "-" (some "서울|분교") (some "설도") none none)
      = false ∧
    isExcludedRec
      (AnimalRecord.mk "002191046216" "-" "-" (some "서울") (some "분교|설도") none none)
      = false ∧
    (addAnimals []
      [AnimalRecord.mk "002191046216" "-" "-" (some "서울|분교") (some "설도") none none,
       AnimalRecord.mk "002191046216" "-" "-" (some "서울") (some "분교|설도") none none]
      ).classes = [RecClass.added, RecClass.dup] ∧
    (addAnimals []
      [AnimalRecord.mk "002191046216" "-" "-" (some "서울|분교") (some "설도") none none,
       AnimalRecord.mk "002191046216" "-" "-" (some "서울") (some "분교|설도") none none]
      ).rows.length = 1 := by
  decide

/-- Claim C9: the `'|'` join of the composite key is not injective — a
concrete pair of distinct records, sharing the traceability number but
differing in destination and cut, produces identical keys, so `addAnimals`
classifies the second record as a duplicate and drops it. -/
theorem rowKey_pipe_collision :
    rowKey (AnimalRecord.mk "002192205667" "-" "-" (some "a|b") (some "c") none none)
      = rowKey (AnimalRecord.mk "002192205667" "-" "-" (some "a") (some "b|c") none none) ∧
    (AnimalRecord.mk "002192205667" "-" "-" (some "a|b") (some "c") none none).destination
      ≠ (AnimalRecord.mk "002192205667" "-" "-" (some "a") (some "b|c") none none
        ).destination ∧
    (addAnimals []
      [AnimalRecord.mk "002192205667" "-" "-" (some "a|b") (some "c") none none,
       AnimalRecord.mk "002192205667" "-" "-" (some "a") (some "b|c") none none]
      ).classes = [RecClass.added, RecClass.dup] ∧
    (addAnimals []
      [AnimalRecord.mk "002192205667" "-" "-" (some "a|b") (some "c") none none,
       AnimalRecord.mk "002192205667" "-" "-" (some "a") (some "b|c") none none]
      ).rows.length = 1 := by
  decide

/-- A pipe-free delivery record used to witness the retention half of the
amended deduplication claim. -/
def recW1 : AnimalRecord :=
  ⟨"002191046216", "한우 / 설도 (14.1kg)", "2025-12-10", some "서울초등학교", none, none, none⟩

/-- Same traceability number as `recW1` but a different destination. -/
def recW2 : AnimalRecord :=
  ⟨"002191046216", "한우 / 설도 (14.1kg)", "2025-12-10", some "부산초등학교", none, none, none⟩

/-- Claim C5 witness: at a concrete store and batch, a repeated record is
flagged duplicate exactly when its key is already present, and the two
pipe-free records sharing a number but not a destination are both kept. -/
theorem addAnimals_duplicate_iff_witness :
    (isExcludedRec recW1 = false ∧ isExcludedRec recW2 = false ∧
      pipeFreeRec recW1 = true ∧ pipeFreeRec recW2 = true ∧
      recW1.animalNumber = recW2.animalNumber ∧
      recW1.destination.getD "" ≠ recW2.destination.getD "") ∧
    (((addAnimals [] ([recW1] ++ recW1 :: [])).classes.get? 1 = some RecClass.dup
        ↔ rowKey recW1 ∈ keysOf (addAnimals [] [recW1]).rows) ∧
      (addAnimals [] [recW1, recW2]).addedCount = 2 ∧
      (addAnimals [] [recW1, recW2]).classes = [RecClass.added, RecClass.added]) :=
  ⟨⟨by decide, by decide, by decide, by decide, by decide, by decide⟩,
    addAnimals_duplicate_iff [] [recW1] [] recW1 (by decide) recW1 recW2
      (by decide) (by decide) (by decide) (by decide) (by decide) (by decide)⟩

/-! ## The label-parser claim -/

/-- The two-line scanner output of the spec's label-parse test case. -/
def twoLineSample : String :=
  "20251210|한우[설도]|서울길원초등학교(올본)|다짐|14.1kg|002192205667" ++ "\n" ++
    "L0021922056671|음성농협축산물공판장"

/-- Claim C3: the two-line sample parses to exactly one record carrying the
primary traceability number, the reformatted production date, the cut
name, the processing type, the weight with its `kg` suffix stripped and
the destination with its parenthesised code stripped; the second
(label-id) line is consumed together with the first and never emitted as
a record of its own. -/
theorem parse_two_line_record :
    parseLabelText twoLineSample =
      [{ animalNumber := "002192205667", breed := "한우 / 설도 (14.1kg)",
         birthDate := "2025-12-10", destination := some "서울길원초등학교",
         cutName := some "설도", processingType := some "다짐",
         weightKg := some "14.1" }] := by
  decide

/-! ## Lemmas about the resolution engine -/

theorem mem_dedupKeepFirstAux (l : List String) : ∀ seen x,
    x ∈ dedupKeepFirstAux l seen ↔ (x ∈ l ∧ x ∉ seen) := by
  induction l with
  | nil => intro seen x; simp [dedupKeepFirstAux]
  | cons y ys ih =>
    intro seen x
    by_cases hy : y ∈ seen
    · rw [show dedupKeepFirstAux (y :: ys) seen = dedupKeepFirstAux ys seen by
        simp [dedupKeepFirstAux, hy]]
      rw [ih seen x]
      constructor
      · rintro ⟨h1, h2⟩
        exact ⟨List.mem_cons_of_mem _ h1, h2⟩
      · rintro ⟨h1, h2⟩
        rcases List.mem_cons.mp h1 with rfl | h1
        · exact absurd hy h2
        · exact ⟨h1, h2⟩
    · rw [show dedupKeepFirstAux (y :: ys) seen = y :: dedupKeepFirstAux ys (y :: seen) by
        simp [dedupKeepFirstAux, hy]]
      constructor
      · intro hx
        rcases List.mem_cons.mp hx with rfl | hx
        · exact ⟨List.mem_cons_self _ _, hy⟩
        · rcases (ih (y :: seen) x).mp hx with ⟨h1, h2⟩
          exact ⟨List.mem_cons_of_mem _ h1,
            fun hs => h2 (List.mem_cons_of_mem _ hs)⟩
      · rintro ⟨h1, h2⟩
        by_cases hxy : x = y
        · exact hxy ▸ List.mem_cons_self _ _
        · rcases List.mem_cons.mp h1 with rfl | h1
          · exact absurd rfl hxy
          · refine List.mem_cons_of_mem _ ((ih (y :: seen) x).mpr ⟨h1, ?_⟩)
            intro hs
            rcases List.mem_cons.mp hs with rfl | hs
            · exact hxy rfl
            · exact h2 hs

theorem mem_dedupKeepFirst (l : List String) (x : String) :
    x ∈ dedupKeepFirst l ↔ x ∈ l := by
  rw [dedupKeepFirst, mem_dedupKeepFirstAux]
  simp

theorem nodup_dedupKeepFirstAux (l : List String) : ∀ seen,
    (dedupKeepFirstAux l seen).Nodup ∧ ∀ x ∈ dedupKeepFirstAux l seen, x ∉ seen := by
  induction l with
  | nil => intro seen; simp [dedupKeepFirstAux]
  | cons y ys ih =>
    intro seen
    by_cases hy : y ∈ seen
    · rw [show dedupKeepFirstAux (y :: ys) seen = dedupKeepFirstAux ys seen by
        simp [dedupKeepFirstAux, hy]]
      exact ih seen
    · rw [show dedupKeepFirstAux (y :: ys) seen = y :: dedupKeepFirstAux ys (y :: seen) by
        simp [dedupKeepFirstAux, hy]]
      rcases ih (y :: seen) with ⟨h1, h2⟩
      refine ⟨List.nodup_cons.mpr ⟨?_, h1⟩, ?_⟩
      · intro hmem
        exact h2 y hmem (List.mem_cons_self _ _)
      · intro x hx
        rcases List.mem_cons.mp hx with rfl | hx
        · exact hy
        · intro hs
          exact h2 x hx (List.mem_cons_of_mem _ hs)

theorem nodup_dedupKeepFirst (l : List String) : (dedupKeepFirst l).Nodup :=
  (nodup_dedupKeepFirstAux l []).1

theorem mem_uniqueNos (animals : List AnimalItem) (x : String) :
    x ∈ uniqueNos animals ↔
      x ∈ (animals.map (fun a => stripDashSpace a.animalNumber)).filter
        (fun no => isValidEkapeNo no) := by
  rw [uniqueNos, mem_dedupKeepFirst]

theorem stripDashSpace_idem (s : String) :
    stripDashSpace (stripDashSpace s) = stripDashSpace s := by
  simp [stripDashSpace, List.filter_filter]

theorem isValid_strip (s : String) :
    isValidEkapeNo (stripDashSpace s) = isValidEkapeNo s := by
  rw [isValidEkapeNo, isValidEkapeNo, stripDashSpace_idem]

theorem cacheGet_buildCache {α : Type} (nos : List String)
    (oracle : String → FetchOutcome α) : ∀ k, k ∈ nos →
    cacheGet (buildCache oracle nos) k = some (settleFetch (oracle k)) := by
  induction nos with
  | nil => intro k hk; exact absurd hk (List.not_mem_nil k)
  | cons no rest ih =>
    intro k hk
    by_cases hno : no = k
    · subst hno
      have hbeq : (no == no) = true := beq_self_eq_true no
      simp [cacheGet, buildCache, List.find?, hbeq]
    · have hbeq : (no == k) = false := beq_eq_false_iff_ne.mpr hno
      rcases List.mem_cons.mp hk with rfl | hk
      · exact absurd rfl hno
      · rw [show cacheGet (buildCache oracle (no :: rest)) k
            = cacheGet (buildCache oracle rest) k by
          simp [cacheGet, buildCache, List.find?, hbeq]]
        exact ih k hk

theorem strip_mem_uniqueNos (animals : List AnimalItem) (i : Nat)
    (a : AnimalItem) (hi : animals.get? i = some a)
    (hv : isValidEkapeNo a.animalNumber = true) :
    stripDashSpace a.animalNumber ∈ uniqueNos animals := by
  rw [mem_uniqueNos]
  apply List.mem_filter.mpr
  constructor
  · exact List.mem_map.mpr ⟨a, List.get?_mem hi, rfl⟩
  · rw [isValid_strip]
    exact hv

theorem initialCert_valid {α : Type} (a : AnimalItem)
    (hv : isValidEkapeNo a.animalNumber = true) :
    (initialCert a : CertItem α)
      = ⟨a.animalNumber, CertStatus.loading, none, none⟩ := by
  simp [initialCert, hv]

theorem initialCert_invalid {α : Type} (a : AnimalItem)
    (hv : isValidEkapeNo a.animalNumber = false) :
    (initialCert a : CertItem α)
      = ⟨a.animalNumber, CertStatus.skipped,
          some ("EKAPE 조회 불가 (12자리 숫자가 아님: " ++ a.animalNumber ++ ")"), none⟩ := by
  simp [initialCert, hv]

theorem reconcileCert_initial_valid {α : Type}
    (cache : List (String × CacheEntry α)) (a : AnimalItem)
    (hv : isValidEkapeNo a.animalNumber = true) (entry : CacheEntry α)
    (hcache : cacheGet cache (stripDashSpace a.animalNumber) = some entry) :
    reconcileCert cache (initialCert a) =
      if entry.ok then
        ⟨a.animalNumber, CertStatus.success, none, some entry.json⟩
      else
        ⟨a.animalNumber, CertStatus.error,
          some ((jsonError entry.json).getD "조회 실패"), none⟩ := by
  rw [initialCert_valid a hv]
  by_cases hok : entry.ok = true
  · simp [reconcileCert, hcache, hok]
  · simp [reconcileCert, hcache, hok]

theorem reconcileCert_skipped {α : Type}
    (cache : List (String × CacheEntry α)) (c : CertItem α)
    (hs : c.status = CertStatus.skipped) :
    reconcileCert cache c = c := by
  simp [reconcileCert, hs]

theorem fetchAllDedup_get {α : Type} (oracle : String → FetchOutcome α)
    (animals : List AnimalItem) (i : Nat) :
    (fetchAllDedup oracle animals).get? i
      = (animals.get? i).map (fun x =>
          reconcileCert (buildCache oracle (uniqueNos animals)) (initialCert x)) := by
  show ((animals.map initialCert).map
    (reconcileCert (buildCache oracle (uniqueNos animals)))).get? i = _
  rw [List.map_map, List.get?_map]
  rfl

/-- Final state of a valid-numbered row under the current engine: `success`
with the cached payload when its number's lookup came back ok, otherwise
`error` with the cached message. -/
theorem fetchAllDedup_get_valid {α : Type} (oracle : String → FetchOutcome α)
    (animals : List AnimalItem) (i : Nat) (a : AnimalItem)
    (hi : animals.get? i = some a) (hv : isValidEkapeNo a.animalNumber = true) :
    (fetchAllDedup oracle animals).get? i = some (
      if (settleFetch (oracle (stripDashSpace a.animalNumber))).ok then
        ⟨a.animalNumber, CertStatus.success, none,
          some (settleFetch (oracle (stripDashSpace a.animalNumber))).json⟩
      else
        ⟨a.animalNumber, CertStatus.error,
          some ((jsonError (settleFetch (oracle (stripDashSpace a.animalNumber))).json
            ).getD "조회 실패"), none⟩) := by
  have hcache := cacheGet_buildCache (uniqueNos animals) oracle _
    (strip_mem_uniqueNos animals i a hi hv)
  rw [fetchAllDedup_get, hi, Option.map_some',
    reconcileCert_initial_valid (buildCache oracle (uniqueNos animals)) a hv _ hcache]

/-- Final state of an invalid-numbered row under the current engine: the
initial `skipped` entry, unchanged. -/
theorem fetchAllDedup_get_invalid {α : Type} (oracle : String → FetchOutcome α)
    (animals : List AnimalItem) (i : Nat) (a : AnimalItem)
    (hi : animals.get? i = some a) (hv : isValidEkapeNo a.animalNumber = false) :
    (fetchAllDedup oracle animals).get? i = some (initialCert a) := by
  rw [fetchAllDedup_get, hi, Option.map_some', reconcileCert_skipped]
  rw [initialCert_invalid a hv]

theorem reconcileCert_miss {α : Type} (cache : List (String × CacheEntry α))
    (c : CertItem α) (hm : cacheGet cache (stripDashSpace c.animalNo) = none) :
    reconcileCert cache c = c := by
  simp [reconcileCert, hm]

theorem initialCert_animalNo {α : Type} (a : AnimalItem) :
    (initialCert (α := α) a).animalNo = a.animalNumber := by
  by_cases hv : isValidEkapeNo a.animalNumber = true
  · rw [initialCert_valid (α := α) a hv]
  · rw [initialCert_invalid (α := α) a (Bool.not_eq_true _ ▸ hv)]

/-! ## Claim C1: one lookup per distinct valid number, shared outcomes -/

/-- Claim C1: the current engine issues exactly one lookup per distinct
stripped 12-digit number — the lookup list `uniqueNos` has no duplicates
and holds exactly the stripped numbers of selected rows that pass the
check, never one entry per row — and, after all lookups settle, two rows
sharing a valid number exhibit the identical (status, payload, message)
triple: success with the shared payload when that number's lookup came
back ok, the identical error message when it failed. -/
theorem resolution_dedup_fanin {α : Type} (oracle : String → FetchOutcome α)
    (animals : List AnimalItem) (i j : Nat) (a b : AnimalItem)
    (hi : animals.get? i = some a) (hj : animals.get? j = some b)
    (hsame : stripDashSpace a.animalNumber = stripDashSpace b.animalNumber)
    (hvalid : isValidEkapeNo a.animalNumber = true) :
    (uniqueNos animals).Nodup ∧
    (uniqueNos animals).toFinset
      = ((animals.map (fun x => stripDashSpace x.animalNumber)).filter
          (fun no => isValidEkapeNo no)).toFinset ∧
    ((fetchAllDedup oracle animals).get? i).map certOutcome
      = ((fetchAllDedup oracle animals).get? j).map certOutcome ∧
    ((fetchAllDedup oracle animals).get? i).map certOutcome
      = some (if (settleFetch (oracle (stripDashSpace a.animalNumber))).ok then
          (CertStatus.success,
            some (settleFetch (oracle (stripDashSpace a.animalNumber))).json, none)
        else
          (CertStatus.error, none,
            some ((jsonError (settleFetch (oracle (stripDashSpace a.animalNumber))).json
              ).getD "조회 실패"))) := by
  have hvb : isValidEkapeNo b.animalNumber = true := by
    rw [← isValid_strip, ← hsame, isValid_strip]
    exact hvalid
  have hia := fetchAllDedup_get_valid oracle animals i a hi hvalid
  have hjb := fetchAllDedup_get_valid oracle animals j b hj hvb
  refine ⟨nodup_dedupKeepFirst _, ?_, ?_, ?_⟩
  · apply Finset.ext
    intro x
    simp only [List.mem_toFinset]
    exact mem_uniqueNos animals x
  · rw [hia, hjb, ← hsame]
    by_cases hok : (settleFetch (oracle (stripDashSpace a.animalNumber))).ok = true
    · simp [hok, certOutcome]
    · simp [hok, certOutcome]
  · rw [hia]
    by_cases hok : (settleFetch (oracle (stripDashSpace a.animalNumber))).ok = true
    · simp [hok, certOutcome]
    · simp [hok, certOutcome]

/-- Row 1 of the spec's fan-in test: shares its number with row 3. -/
def rowW1 : AnimalItem := ⟨1, "002191046216", "-", "-", none, none, none, none⟩

/-- Row 2 of the spec's fan-in test: the other distinct number. -/
def rowW2 : AnimalItem := ⟨2, "002191046217", "-", "-", none, none, none, none⟩

/-- Row 3 of the spec's fan-in test: repeats row 1's number. -/
def rowW3 : AnimalItem := ⟨3, "002191046216", "-", "-", none, none, none, none⟩

/-- The selected rows of the spec's fan-in test. -/
def animalsW : List AnimalItem := [rowW1, rowW2, rowW3]

/-- A lookup collaborator that fails the shared number and succeeds on the
other one. -/
def oracleW : String → FetchOutcome Nat := fun no =>
  if no == "002191046216" then
    FetchOutcome.response false (JsonVal.errObj (some "해당 이력번호 없음"))
  else
    FetchOutcome.response true (JsonVal.payload 7)

/-- Claim C1 witness: the spec's three-row fan-in example, with the shared
number failing and the other succeeding. -/
theorem resolution_dedup_fanin_witness :
    (uniqueNos animalsW).Nodup ∧
    (uniqueNos animalsW).toFinset
      = ((animalsW.map (fun x => stripDashSpace x.animalNumber)).filter
          (fun no => isValidEkapeNo no)).toFinset ∧
    ((fetchAllDedup oracleW animalsW).get? 0).map certOutcome
      = ((fetchAllDedup oracleW animalsW).get? 2).map certOutcome ∧
    ((fetchAllDedup oracleW animalsW).get? 0).map certOutcome
      = some (if (settleFetch (oracleW (stripDashSpace rowW1.animalNumber))).ok then
          (CertStatus.success,
            some (settleFetch (oracleW (stripDashSpace rowW1.animalNumber))).json, none)
        else
          (CertStatus.error, none,
            some ((jsonError (settleFetch (oracleW (stripDashSpace rowW1.animalNumber))
              ).json).getD "조회 실패"))) :=
  resolution_dedup_fanin oracleW animalsW 0 2 rowW1 rowW3 rfl rfl (by decide) (by decide)

/-! ## Claim C7: invalid-format short-circuit -/

/-- Claim C7: a selected row whose number is not 12 digits after stripping is
`skipped` with the fixed diagnostic from the very start, still so in the
final state, its stripped number is absent from the lookup list (no
request is ever issued for it), it counts as settled in the progress
numerator from the start, and the progress denominator is the number of
selected rows. -/
theorem invalid_row_skipped {α : Type} (oracle : String → FetchOutcome α)
    (animals : List AnimalItem) (i : Nat) (a : AnimalItem)
    (hi : animals.get? i = some a) (hv : isValidEkapeNo a.animalNumber = false) :
    (initialCerts (α := α) animals).get? i
      = some ⟨a.animalNumber, CertStatus.skipped,
          some ("EKAPE 조회 불가 (12자리 숫자가 아님: " ++ a.animalNumber ++ ")"), none⟩ ∧
    (fetchAllDedup oracle animals).get? i
      = some ⟨a.animalNumber, CertStatus.skipped,
          some ("EKAPE 조회 불가 (12자리 숫자가 아님: " ++ a.animalNumber ++ ")"), none⟩ ∧
    stripDashSpace a.animalNumber ∉ uniqueNos animals ∧
    ((initialCerts (α := α) animals).get? i).all
      (fun c => c.status != CertStatus.loading) = true ∧
    totalCount (initialCerts (α := α) animals) = animals.length := by
  have h1 : (initialCerts (α := α) animals).get? i = some (initialCert a) := by
    show (animals.map initialCert).get? i = _
    rw [List.get?_map, hi, Option.map_some']
  refine ⟨?_, ?_, ?_, ?_, ?_⟩
  · rw [h1, initialCert_invalid a hv]
  · rw [fetchAllDedup_get_invalid oracle animals i a hi hv, initialCert_invalid a hv]
  · intro hmem
    rcases List.mem_filter.mp ((mem_uniqueNos animals _).mp hmem) with ⟨_, hva⟩
    rw [isValid_strip, hv] at hva
    simp at hva
  · rw [h1, initialCert_invalid a hv]
    rfl
  · show (animals.map initialCert).length = animals.length
    exact List.length_map _ _

/-- A selected row whose number is five digits, from the spec's test. -/
def rowInvalid : AnimalItem := ⟨1, "12345", "-", "-", none, none, none, none⟩

/-- A one-row selection containing only the invalid number. -/
def animalsInvalid : List AnimalItem := [rowInvalid]

/-- A lookup collaborator that always succeeds (never reached in the
invalid-format witness). -/
def oracleAlwaysOk : String → FetchOutcome Nat := fun _ =>
  FetchOutcome.response true (JsonVal.payload 0)

/-- Claim C7 witness: the five-digit row `12345` is skipped from the start,
unchanged at the end, and issues no lookup. -/
theorem invalid_row_skipped_witness :
    (initialCerts (α := Nat) animalsInvalid).get? 0
      = some ⟨rowInvalid.animalNumber, CertStatus.skipped,
          some ("EKAPE 조회 불가 (12자리 숫자가 아님: " ++ rowInvalid.animalNumber ++ ")"),
          none⟩ ∧
    (fetchAllDedup oracleAlwaysOk animalsInvalid).get? 0
      = some ⟨rowInvalid.animalNumber, CertStatus.skipped,
          some ("EKAPE 조회 불가 (12자리 숫자가 아님: " ++ rowInvalid.animalNumber ++ ")"),
          none⟩ ∧
    stripDashSpace rowInvalid.animalNumber ∉ uniqueNos animalsInvalid ∧
    ((initialCerts (α := Nat) animalsInvalid).get? 0).all
      (fun c => c.status != CertStatus.loading) = true ∧
    totalCount (initialCerts (α := Nat) animalsInvalid) = animalsInvalid.length :=
  invalid_row_skipped oracleAlwaysOk animalsInvalid 0 rowInvalid rfl (by decide)

/-! ## Claim C8: allowed state transitions only -/

/-- Claim C8: a row's state machine — the initial state is `loading` exactly
for valid-format numbers and `skipped` otherwise; a skipped row is never
changed by reconciliation; reconciliation can only produce `success`,
`error`, or leave the row untouched; a row whose stripped number misses
the result map is left untouched (fails closed); and under the engine's
own completed cache a valid row ends in `success` or `error`. -/
theorem cert_state_machine {α : Type} (cache : List (String × CacheEntry α))
    (oracle : String → FetchOutcome α) (animals : List AnimalItem)
    (i : Nat) (a : AnimalItem) (hi : animals.get? i = some a) :
    (initialCert (α := α) a).status
      = (if isValidEkapeNo a.animalNumber then CertStatus.loading
          else CertStatus.skipped) ∧
    (isValidEkapeNo a.animalNumber = true ∨
      reconcileCert cache (initialCert a) = initialCert a) ∧
    ((reconcileCert cache (initialCert (α := α) a)).status = CertStatus.success ∨
      (reconcileCert cache (initialCert a)).status = CertStatus.error ∨
      reconcileCert cache (initialCert a) = initialCert a) ∧
    (¬cacheGet cache (stripDashSpace a.animalNumber) = none ∨
      reconcileCert cache (initialCert a) = initialCert a) ∧
    (isValidEkapeNo a.animalNumber = false ∨
      (reconcileCert (buildCache oracle (uniqueNos animals))
          (initialCert (α := α) a)).status = CertStatus.success ∨
      (reconcileCert (buildCache oracle (uniqueNos animals))
          (initialCert a)).status = CertStatus.error) := by
  refine ⟨?_, ?_, ?_, ?_, ?_⟩
  · by_cases hv : isValidEkapeNo a.animalNumber = true
    · rw [initialCert_valid a hv, hv, if_pos rfl]
    · have hv2 := Bool.not_eq_true _ ▸ hv
      rw [initialCert_invalid a hv2, hv2]
      rfl
  · by_cases hv : isValidEkapeNo a.animalNumber = true
    · exact Or.inl hv
    · refine Or.inr (reconcileCert_skipped cache _ ?_)
      rw [initialCert_invalid a (Bool.not_eq_true _ ▸ hv)]
  · by_cases hv : isValidEkapeNo a.animalNumber = true
    · rcases hc : cacheGet cache (stripDashSpace a.animalNumber) with _ | entry
      · refine Or.inr (Or.inr (reconcileCert_miss cache _ ?_))
        rw [initialCert_animalNo]
        exact hc
      · rw [reconcileCert_initial_valid cache a hv entry hc]
        by_cases hok : entry.ok = true
        · exact Or.inl (by rw [if_pos hok])
        · refine Or.inr (Or.inl ?_)
          rw [if_neg hok]
    · refine Or.inr (Or.inr (reconcileCert_skipped cache _ ?_))
      rw [initialCert_invalid a (Bool.not_eq_true _ ▸ hv)]
  · rcases hc : cacheGet cache (stripDashSpace a.animalNumber) with _ | entry
    · refine Or.inr (reconcileCert_miss cache _ ?_)
      rw [initialCert_animalNo]
      exact hc
    · exact Or.inl (by simp)
  · by_cases hv : isValidEkapeNo a.animalNumber = true
    · have hcache := cacheGet_buildCache (uniqueNos animals) oracle _
        (strip_mem_uniqueNos animals i a hi hv)
      rw [reconcileCert_initial_valid _ a hv _ hcache]
      by_cases hok : (settleFetch (oracle (stripDashSpace a.animalNumber))).ok = true
      · exact Or.inr (Or.inl (by rw [if_pos hok]))
      · exact Or.inr (Or.inr (by rw [if_neg hok]))
    · exact Or.inl (Bool.not_eq_true _ ▸ hv)

/-- Claim C8 witness: the state machine conjunction at the spec's fan-in
rows, an empty result map, and the mixed-outcome collaborator. -/
theorem cert_state_machine_witness :
    (initialCert (α := Nat) rowW1).status
      = (if isValidEkapeNo rowW1.animalNumber then CertStatus.loading
          else CertStatus.skipped) ∧
    (isValidEkapeNo rowW1.animalNumber = true ∨
      reconcileCert ([] : List (String × CacheEntry Nat)) (initialCert rowW1)
        = initialCert rowW1) ∧
    ((reconcileCert ([] : List (String × CacheEntry Nat))
        (initialCert rowW1)).status = CertStatus.success ∨
      (reconcileCert ([] : List (String × CacheEntry Nat))
        (initialCert rowW1)).status = CertStatus.error ∨
      reconcileCert ([] : List (String × CacheEntry Nat)) (initialCert rowW1)
        = initialCert rowW1) ∧
    (¬cacheGet ([] : List (String × CacheEntry Nat))
        (stripDashSpace rowW1.animalNumber) = none ∨
      reconcileCert ([] : List (String × CacheEntry Nat)) (initialCert rowW1)
        = initialCert rowW1) ∧
    (isValidEkapeNo rowW1.animalNumber = false ∨
      (reconcileCert (buildCache oracleW (uniqueNos animalsW))
          (initialCert (α := Nat) rowW1)).status = CertStatus.success ∨
      (reconcileCert (buildCache oracleW (uniqueNos animalsW))
          (initialCert rowW1)).status = CertStatus.error) :=
  cert_state_machine [] oracleW animalsW 0 rowW1 rfl

/-! ## Claim C4: how the progress pair actually behaves -/

/-- Claim C4 (amended): the progress pair counts rows, not distinct keys —
`total` is the number of selected rows at every observable point; the
`certs` state observed at every suspension point of a run is either the
initial state or the final one, with the trace consisting of the
unchanged initial state at every intermediate settle point followed by
the single reconciled state; `loaded` starts at the number of
invalid-format rows and reaches the row count only at that final step —
it is not updated incrementally per lookup. -/
theorem progress_counter_batched {α : Type} (oracle : String → FetchOutcome α)
    (animals : List AnimalItem) :
    certsTrace oracle animals
      = List.replicate ((uniqueNos animals).length + 1) (initialCerts animals)
        ++ [fetchAllDedup oracle animals] ∧
    (certsTrace oracle animals).map totalCount
      = List.replicate ((uniqueNos animals).length + 2) animals.length ∧
    loadedCount (initialCerts (α := α) animals)
      = (animals.filter (fun x => !isValidEkapeNo x.animalNumber)).length ∧
    loadedCount (fetchAllDedup oracle animals) = animals.length := by
  have hshape : certsTrace oracle animals
      = List.replicate ((uniqueNos animals).length + 1) (initialCerts animals)
        ++ [fetchAllDedup oracle animals] := by
    rw [certsTrace, List.replicate_succ, List.cons_append]
    rw [List.map_const']
  have hinitlen : (initialCerts (α := α) animals).length = animals.length :=
    List.length_map _ _
  have hfinlen : (fetchAllDedup oracle animals).length = animals.length := by
    show ((animals.map initialCert).map _).length = _
    rw [List.length_map, List.length_map]
  refine ⟨hshape, ?_, ?_, ?_⟩
  · rw [hshape, List.map_append, List.map_replicate]
    show List.replicate _ (initialCerts (α := α) animals).length ++
        [(fetchAllDedup oracle animals).length] = _
    rw [hinitlen, hfinlen, ← List.replicate_succ']
  · show ((animals.map initialCert).filter
      (fun c => c.status != CertStatus.loading)).length = _
    rw [List.filter_map]
    rw [List.length_map]
    congr 1
    apply List.filter_congr
    intro x _
    show ((initialCert (α := α) x).status != CertStatus.loading)
      = !isValidEkapeNo x.animalNumber
    by_cases hv : isValidEkapeNo x.animalNumber = true
    · rw [initialCert_valid x hv, hv]
      rfl
    · have hv2 := Bool.not_eq_true _ ▸ hv
      rw [initialCert_invalid x hv2, hv2]
      rfl
  · show (((animals.map initialCert).map
        (reconcileCert (buildCache oracle (uniqueNos animals)))).filter
      (fun c => c.status != CertStatus.loading)).length = _
    rw [List.map_map, List.filter_map, List.length_map]
    have hall : ∀ x ∈ animals,
        ((fun c : CertItem α => c.status != CertStatus.loading) ∘
          (reconcileCert (buildCache oracle (uniqueNos animals)) ∘ initialCert)) x
        = (fun _ => true) x := by
      intro x hx
      show ((reconcileCert (buildCache oracle (uniqueNos animals))
        (initialCert (α := α) x)).status != CertStatus.loading) = true
      by_cases hv : isValidEkapeNo x.animalNumber = true
      · have hidx : ∃ k, animals.get? k = some x := by
          rcases List.get_of_mem hx with ⟨⟨k, hk⟩, hget⟩
          exact ⟨k, by rw [List.get?_eq_get hk, hget]⟩
        rcases hidx with ⟨k, hk⟩
        have hcache := cacheGet_buildCache (uniqueNos animals) oracle _
          (strip_mem_uniqueNos animals k x hk hv)
        rw [reconcileCert_initial_valid _ x hv _ hcache]
        by_cases hok : (settleFetch (oracle (stripDashSpace x.animalNumber))).ok = true
        · rw [if_pos hok]
          rfl
        · rw [if_neg hok]
          rfl
      · have hv2 := Bool.not_eq_true _ ▸ hv
        rw [reconcileCert_skipped _ _ (by rw [initialCert_invalid x hv2]),
          initialCert_invalid x hv2]
        rfl
    rw [List.filter_congr hall, List.filter_true]

/-- Claim C4, counterexample to the claim as stated: on the three-row,
two-distinct-key selection, the exposed progress denominator is 3 (rows),
not 2 (distinct keys); the `certs` state observed after the first and
after the second lookup settles is still the initial state, so `loaded`
reads 0 at every intermediate point and jumps straight to 3 at the single
final reconciliation — it is not updated incrementally per settled
lookup and it does not count distinct keys. -/
theorem progress_counter_counterexample :
    (certsTrace oracleW animalsW).map loadedCount = [0, 0, 0, 3] ∧
    (uniqueNos animalsW).length = 2 ∧
    (certsTrace oracleW animalsW).map totalCount = [3, 3, 3, 3] ∧
    (certsTrace oracleW animalsW).get? 1 = some (initialCerts animalsW) ∧
    (certsTrace oracleW animalsW).get? 2 = some (initialCerts animalsW) := by
  decide

/-! ## Claim C10: the per-row engine refines to the deduplicating engine -/

theorem mapIdxFrom_get? {β : Type} (f : Nat → β → β) (l : List β) : ∀ k i,
    (mapIdxFrom f k l).get? i = (l.get? i).map (f (k + i)) := by
  induction l with
  | nil => intro k i; rfl
  | cons c rest ih =>
    intro k i
    cases i with
    | zero => rfl
    | succ m =>
      show (mapIdxFrom f (k + 1) rest).get? m = (rest.get? m).map (f (k + (m + 1)))
      rw [ih (k + 1) m, show k + 1 + m = k + (m + 1) from by omega]

theorem mapIdxFrom_length {β : Type} (f : Nat → β → β) (l : List β) : ∀ k,
    (mapIdxFrom f k l).length = l.length := by
  induction l with
  | nil => intro k; rfl
  | cons c rest ih =>
    intro k
    show (mapIdxFrom f (k + 1) rest).length + 1 = rest.length + 1
    rw [ih (k + 1)]

theorem oldUpdate_idem {α : Type} (oracle : String → FetchOutcome α)
    (a : AnimalItem) (c : CertItem α) :
    oldUpdate oracle a (oldUpdate oracle a c) = oldUpdate oracle a c := by
  rcases h : oracle (stripDashSpace a.animalNumber) with ⟨ok, json⟩ | msg
  · cases ok
    · simp [oldUpdate, h]
    · simp [oldUpdate, h]
  · simp [oldUpdate, h]

theorem applyOldStep_none {α : Type} (oracle : String → FetchOutcome α)
    (animals : List AnimalItem) (certs : List (CertItem α)) (idx : Nat)
    (h : animals.get? idx = none) :
    applyOldStep oracle animals certs idx = certs := by
  unfold applyOldStep
  rw [h]

theorem applyOldStep_invalid {α : Type} (oracle : String → FetchOutcome α)
    (animals : List AnimalItem) (certs : List (CertItem α)) (idx : Nat)
    (a : AnimalItem) (h : animals.get? idx = some a)
    (hv : isValidEkapeNo a.animalNumber = false) :
    applyOldStep oracle animals certs idx = certs := by
  unfold applyOldStep
  rw [h]
  exact if_neg (by rw [hv]; exact Bool.false_ne_true)

theorem applyOldStep_valid {α : Type} (oracle : String → FetchOutcome α)
    (animals : List AnimalItem) (certs : List (CertItem α)) (idx : Nat)
    (a : AnimalItem) (h : animals.get? idx = some a)
    (hv : isValidEkapeNo a.animalNumber = true) :
    applyOldStep oracle animals certs idx
      = mapIdxFrom (fun i c => if i == idx then oldUpdate oracle a c else c) 0 certs := by
  unfold applyOldStep
  rw [h]
  exact if_pos hv

theorem applyOldStep_length {α : Type} (oracle : String → FetchOutcome α)
    (animals : List AnimalItem) (certs : List (CertItem α)) (idx : Nat) :
    (applyOldStep oracle animals certs idx).length = certs.length := by
  rcases h : animals.get? idx with _ | a
  · rw [applyOldStep_none oracle animals certs idx h]
  · by_cases hv : isValidEkapeNo a.animalNumber = true
    · rw [applyOldStep_valid oracle animals certs idx a h hv, mapIdxFrom_length]
    · rw [applyOldStep_invalid oracle animals certs idx a h (Bool.not_eq_true _ ▸ hv)]

/-- The run invariant of the earlier engine: every slot holds either the
initial entry of its row or that entry rewritten by its own settled fetch,
an invalid row's slot always holds the initial entry, and a slot of a
valid row whose index is not among the still-pending ones already holds
the rewritten entry. -/
def OldInv {α : Type} (oracle : String → FetchOutcome α) (animals : List AnimalItem)
    (pending : List Nat) (certs : List (CertItem α)) : Prop :=
  certs.length = animals.length ∧
  ∀ t x, animals.get? t = some x →
    (certs.get? t = some (initialCert x) ∨
      certs.get? t = some (oldUpdate oracle x (initialCert x))) ∧
    (isValidEkapeNo x.animalNumber = false → certs.get? t = some (initialCert x)) ∧
    (t ∉ pending → isValidEkapeNo x.animalNumber = true →
      certs.get? t = some (oldUpdate oracle x (initialCert x)))

theorem oldInv_step {α : Type} (oracle : String → FetchOutcome α)
    (animals : List AnimalItem) (idx : Nat) (pending : List Nat)
    (certs : List (CertItem α)) (h : OldInv oracle animals (idx :: pending) certs) :
    OldInv oracle animals pending (applyOldStep oracle animals certs idx) := by
  rcases h with ⟨hlen, hslots⟩
  refine ⟨by rw [applyOldStep_length, hlen], ?_⟩
  intro t x ht
  rcases hslots t x ht with ⟨hcur, hinv, hdone⟩
  rcases ha : animals.get? idx with _ | ai
  · rw [applyOldStep_none oracle animals certs idx ha]
    refine ⟨hcur, hinv, fun hpen hvx => hdone ?_ hvx⟩
    intro hmem
    rcases List.mem_cons.mp hmem with rfl | hmem
    · rw [ht] at ha
      exact Option.noConfusion ha
    · exact hpen hmem
  · by_cases hva : isValidEkapeNo ai.animalNumber = true
    · rw [applyOldStep_valid oracle animals certs idx ai ha hva]
      by_cases hti : t = idx
      · subst hti
        have hx : ai = x := by
          rw [ht] at ha
          exact ((Option.some.injEq _ _).mp ha).symm
        subst hx
        rw [mapIdxFrom_get?]
        refine ⟨?_, ?_, ?_⟩
        · rcases hcur with hcur | hcur
          · rw [hcur]
            right
            simp
          · rw [hcur]
            right
            simp [oldUpdate_idem]
        · intro hv0
          rw [hv0] at hva
          exact absurd hva (by simp)
        · intro _ _
          rcases hcur with hcur | hcur
          · rw [hcur]
            simp
          · rw [hcur]
            simp [oldUpdate_idem]
      · have hget : (mapIdxFrom (fun i c => if i == idx then oldUpdate oracle ai c else c)
            0 certs).get? t = certs.get? t := by
          rw [mapIdxFrom_get?]
          have hne : ((t == idx)) = false := by
            simp
            exact hti
          rcases hc : certs.get? t with _ | c
          · rfl
          · simp [hne]
        rw [hget]
        refine ⟨hcur, hinv, fun hpen hvx => hdone ?_ hvx⟩
        intro hmem
        rcases List.mem_cons.mp hmem with rfl | hmem
        · exact hti rfl
        · exact hpen hmem
    · rw [applyOldStep_invalid oracle animals certs idx ai ha (Bool.not_eq_true _ ▸ hva)]
      refine ⟨hcur, hinv, fun hpen hvx => hdone ?_ hvx⟩
      intro hmem
      rcases List.mem_cons.mp hmem with rfl | hmem
      · rw [ht] at ha
        have : ai = x := ((Option.some.injEq _ _).mp ha).symm
        subst this
        rw [hvx] at hva
        exact hva rfl
      · exact hpen hmem

theorem oldInv_fold {α : Type} (oracle : String → FetchOutcome α)
    (animals : List AnimalItem) : ∀ (order : List Nat) (certs : List (CertItem α)),
    OldInv oracle animals order certs →
    OldInv oracle animals [] (order.foldl (applyOldStep oracle animals) certs) := by
  intro order
  induction order with
  | nil => intro certs h; exact h
  | cons idx rest ih =>
    intro certs h
    exact ih (applyOldStep oracle animals certs idx) (oldInv_step oracle animals idx rest certs h)

/-- The single reconciliation of the current engine agrees pointwise with
the per-row rewrite of the earlier engine, for a valid row of the
selection. -/
theorem reconcile_eq_oldUpdate {α : Type} (oracle : String → FetchOutcome α)
    (animals : List AnimalItem) (k : Nat) (x : AnimalItem)
    (hk : animals.get? k = some x) (hv : isValidEkapeNo x.animalNumber = true) :
    reconcileCert (buildCache oracle (uniqueNos animals)) (initialCert x)
      = oldUpdate oracle x (initialCert x) := by
  have hcache := cacheGet_buildCache (uniqueNos animals) oracle _
    (strip_mem_uniqueNos animals k x hk hv)
  rw [reconcileCert_initial_valid _ x hv _ hcache, initialCert_valid x hv]
  rcases h : oracle (stripDashSpace x.animalNumber) with ⟨ok, json⟩ | msg
  · cases ok
    · simp [oldUpdate, h, settleFetch, jsonError]
    · simp [oldUpdate, h, settleFetch]
  · simp [oldUpdate, h, settleFetch, jsonError]

/-- Claim C10: with a deterministic lookup collaborator, the earlier
per-row-fetch engine and the current deduplicating engine produce the same
final `certs` state — the same status, payload and error message on every
row — whatever the order in which the per-row fetches settle, provided
every row's fetch does settle. -/
theorem fetchAll_refinement {α : Type} (oracle : String → FetchOutcome α)
    (animals : List AnimalItem) (order : List Nat)
    (hcov : ∀ t, t < animals.length → t ∈ order) :
    fetchAllPerRow oracle animals order = fetchAllDedup oracle animals := by
  have hbase : OldInv oracle animals order (initialCerts animals) := by
    refine ⟨List.length_map _ _, ?_⟩
    intro t x ht
    have hget : (initialCerts (α := α) animals).get? t = some (initialCert x) := by
      show (animals.map initialCert).get? t = _
      rw [List.get?_map, ht, Option.map_some']
    refine ⟨Or.inl hget, fun _ => hget, ?_⟩
    intro hpen _
    exfalso
    apply hpen
    apply hcov
    by_contra hge
    rw [List.get?_eq_none.mpr (Nat.le_of_not_lt hge)] at ht
    exact Option.noConfusion ht
  rcases oldInv_fold oracle animals order (initialCerts animals) hbase with ⟨hlen, hslots⟩
  apply List.ext
  intro t
  rcases ht : animals.get? t with _ | x
  · have hge : animals.length ≤ t := List.get?_eq_none.mp ht
    rw [List.get?_eq_none.mpr, List.get?_eq_none.mpr]
    · show ((animals.map initialCert).map
        (reconcileCert (buildCache oracle (uniqueNos animals)))).length ≤ t
      rw [List.length_map, List.length_map]
      exact hge
    · show (order.foldl (applyOldStep oracle animals) (initialCerts animals)).length ≤ t
      rw [hlen]
      exact hge
  · rcases hslots t x ht with ⟨_, hinv, hdone⟩
    by_cases hv : isValidEkapeNo x.animalNumber = true
    · show (order.foldl (applyOldStep oracle animals) (initialCerts animals)).get? t = _
      rw [hdone (List.not_mem_nil t) hv, fetchAllDedup_get, ht, Option.map_some',
        reconcile_eq_oldUpdate oracle animals t x ht hv]
    · have hv2 := Bool.not_eq_true _ ▸ hv
      show (order.foldl (applyOldStep oracle animals) (initialCerts animals)).get? t = _
      rw [hinv hv2, fetchAllDedup_get_invalid oracle animals t x ht hv2]

/-- Claim C10 witness: the two engines agree on the spec's three-row fan-in
selection with the mixed-outcome collaborator, under a settle order that
interleaves the rows. -/
theorem fetchAll_refinement_witness :
    fetchAllPerRow oracleW animalsW [2, 0, 1] = fetchAllDedup oracleW animalsW :=
  fetchAll_refinement oracleW animalsW [2, 0, 1] (by decide)

end MeatDashboard
